import Mathlib

/-!
# Verification of the Monolith module-scaffolding CLI

A shallow embedding, in Lean 4, of the Module Resolution & Installation
Engine of the Monolith CLI (TypeScript sources `cli/src/utils/installer.ts`
and the registry manager).  Pure functions of the source are translated to
Lean functions; filesystem and process effects are made explicit through an
environment record of oracles and an association-list filesystem.  Strings
of file contents are modelled as `List Char` so that splitting, substring
search and concatenation have workable lemmas.

Sections:
* dependency resolution (`checkDependencies`, a DFS with cycle detection);
* the data model (module descriptors, file specs, project configuration);
* target selection, file materialisation and the `install` orchestration;
* environment-variable merging (`configureEnvVariables`);
* marker-based source injection (`registerToFile`, modelled at the level
  of a simplified TypeScript source-file AST).
-/

namespace Monolith

/-- File contents are modelled as lists of characters. -/
abbrev Str := List Char

/-! ## Dependency resolver (registry.ts `checkDependencies`)

The TypeScript function does a depth-first traversal of the `requires`
edges with a per-branch `path` (for cycle detection) and a global
`visited` set, accumulating `satisfied`, `missing` and `circular` arrays
by `push`.  JavaScript has no fuel; the Lean model indexes the recursion
by a fuel that bounds the nesting depth and we prove (claim C6) that any
fuel of at least `registry.length + 1` gives the same, stable result. -/

/-- The mutable accumulator of `checkDependencies`: the three result
arrays plus the global visited set (all appended at the end, as JS
`push`/`Set.add` do; an element is added to `visited` only when absent). -/
structure DepSt where
  satisfied : List String
  missing : List String
  circular : List String
  visited : List String
deriving Repr, DecidableEq

/-- A module descriptor, as consumed by the installer.  Fields the
installer reads: `requires`, `dependencies`, `envVariables`, `files`,
`targets`, `hooks.afterInstall`, plus `name`/`version`/`description`
for template substitution and logging.  `requires` being absent in JSON
is modelled by the empty list. -/
structure Dependency where
  name : String
  version : String
deriving Repr, DecidableEq

/-- An environment variable declared by a module (`envVariables` entry). -/
structure EnvVariable where
  name : String
  description : String
  dfault : Option String   -- `default` in the source (JS optional field)
  required : Bool
deriving Repr, DecidableEq

/-- Which app kind a file set or an app targets. -/
inductive TargetKind where
  | backend
  | frontend
deriving Repr, DecidableEq

/-- The `autoRegister.type` of a file spec: `'plugin' | 'routes'`. -/
inductive RegKind where
  | plugin
  | routes
deriving Repr, DecidableEq

/-- The `autoRegister` block of a file spec. -/
structure AutoRegisterCfg where
  typ : RegKind          -- `type` in the source
  injectIn : String
  importAs : String
  marker : String
deriving Repr, DecidableEq

/-- One file of a module (`ModuleFile` in types/index.ts). -/
structure ModuleFile where
  path : String
  target : String
  ftype : String         -- `type` in the source; never branched on here
  autoRegister : Option AutoRegisterCfg
deriving Repr, DecidableEq

/-- The `files` field of a module: either a flat list (legacy) or a
record keyed by target kind (new format).  A missing key in the record
format is modelled by the empty list (`files[targetType] || []`). -/
inductive FilesField where
  | flat (files : List ModuleFile)
  | byKind (backend frontend : List ModuleFile)
deriving Repr, DecidableEq

/-- A post-install hook action (only the shape; hooks only log or shell
out, with failures caught, so they do not affect the modelled state). -/
structure HookAction where
  typ : String
  message : Option String
  vars : List String      -- `variables` in the source
deriving Repr, DecidableEq

/-- A module descriptor. -/
structure ModuleConfig where
  name : String
  description : String
  version : String
  requires : List String
  dependencies : List Dependency
  envVariables : List EnvVariable
  files : FilesField
  targets : Option (List TargetKind)
  afterInstall : List HookAction
deriving Repr, DecidableEq

/-- The registry: module name to descriptor, with unique keys
(a JS object).  Lookup is association-list lookup. -/
abbrev Registry := List (String × ModuleConfig)

/-- Lookup `modules[name]` of the source: association-list lookup. -/
def regFind (reg : Registry) (name : String) : Option ModuleConfig :=
  (reg.find? (fun kv => kv.1 = name)).map Prod.snd

/-- One step of the DFS (`check(name, path)` in registry.ts), indexed by
fuel that bounds the nesting depth.  Sibling calls (the `for` loop over
`requires`, the inner `foldl`) share the same fuel, exactly as sibling
JS calls share the same call depth.

```js
const check = (name, path = []) => \x7b
  if (path.includes(name)) \x7b circular.push(name); return; \x7d
  if (visited.has(name)) return;
  visited.add(name);
  if (modules[name]) \x7b
    satisfied.push(name);
    for (const req of modules[name].requires || []) check(req, [...path, name]);
  \x7d else missing.push(name);
\x7d;
``` -/
def checkStep (reg : Registry) : Nat → String → List String → DepSt → DepSt
  | 0, _, _, s => s
  | fuel + 1, name, path, s =>
    if name ∈ path then
      { s with circular := s.circular ++ [name] }
    else if name ∈ s.visited then
      s
    else
      match regFind reg name with
      | some m =>
          m.requires.foldl (fun acc r => checkStep reg fuel r (path ++ [name]) acc)
            { s with visited := s.visited ++ [name],
                     satisfied := s.satisfied ++ [name] }
      | none =>
          { s with visited := s.visited ++ [name],
                   missing := s.missing ++ [name] }

/-- The `for (const req of requires) check(req, ...)` loop at one
recursion depth: fold `checkStep` over the list. -/
def checkList (reg : Registry) (fuel : Nat) (rs : List String) (path : List String)
    (s : DepSt) : DepSt :=
  rs.foldl (fun acc r => checkStep reg fuel r path acc) s

/-- Unfolding of `checkList` on the empty list. -/
theorem checkList_nil (reg : Registry) (fuel : Nat) (path : List String) (s : DepSt) :
    checkList reg fuel [] path s = s := rfl

/-- Unfolding of `checkList` on a cons: process the head, continue. -/
theorem checkList_cons (reg : Registry) (fuel : Nat) (r : String) (rs : List String)
    (path : List String) (s : DepSt) :
    checkList reg fuel (r :: rs) path s
      = checkList reg fuel rs path (checkStep reg fuel r path s) := rfl

/-- Unfolding of `checkStep` at successor fuel, phrased through
`checkList`. -/
theorem checkStep_succ (reg : Registry) (fuel : Nat) (name : String)
    (path : List String) (s : DepSt) :
    checkStep reg (fuel + 1) name path s =
      if name ∈ path then
        { s with circular := s.circular ++ [name] }
      else if name ∈ s.visited then
        s
      else
        match regFind reg name with
        | some m =>
            checkList reg fuel m.requires (path ++ [name])
              { s with visited := s.visited ++ [name],
                       satisfied := s.satisfied ++ [name] }
        | none =>
            { s with visited := s.visited ++ [name],
                     missing := s.missing ++ [name] } := rfl

/-- Result record of `checkDependencies`. -/
structure DepResult where
  satisfied : List String
  missing : List String
  circular : List String
deriving Repr, DecidableEq

/-- Function `checkDependencies`, with an explicit fuel for the DFS depth.  The
top level pushes the root module onto `satisfied` without visiting it and
then traverses its `requires` with `path = [moduleName]`. -/
def checkDependenciesFuel (reg : Registry) (moduleName : String) (fuel : Nat) : DepResult :=
  match regFind reg moduleName with
  | some m =>
      let s := checkList reg fuel m.requires [moduleName]
        { satisfied := [moduleName], missing := [], circular := [], visited := [] }
      { satisfied := s.satisfied, missing := s.missing, circular := s.circular }
  | none => { satisfied := [], missing := [], circular := [] }

/-- Function `checkDependencies` itself: the JS recursion has no fuel; its depth is
bounded by the number of registry keys plus one, so that fuel is adequate
(proved below as claim C6). -/
def checkDependencies (reg : Registry) (moduleName : String) : DepResult :=
  checkDependenciesFuel reg moduleName (reg.length + 1)

/-! ## Strings, paths and the filesystem model

Node path functions are modelled for the relative-path shapes the
installer actually produces: `resolve(a, b)` as joining with a slash,
`relative(root, p)` as stripping the root prefix, `dirname` as dropping
the last `/`-component.  The filesystem is an association list from path
to contents; `writeFile` prepends (later writes shadow earlier ones). -/

/-- JS `s.includes(pat)`: substring search over character lists. -/
def containsSub (s pat : Str) : Bool :=
  match s with
  | [] => pat.isEmpty
  | _ :: rest => pat.isPrefixOf s || containsSub rest pat

/-- JS `s.endsWith('\n')`. -/
def endsWithNewline (s : Str) : Bool :=
  s.getLast? == some '\n'

/-- The lines of a `KEY=value`-per-line file (split on newline). -/
def linesOf (s : Str) : List Str :=
  s.splitOn '\n'

/-- Prefix test on strings through their character lists (structural,
so that concrete instances evaluate by `decide`). -/
def strIsPrefixOf (pat s : String) : Bool :=
  pat.toList.isPrefixOf s.toList

/-- Model of `node:path` `resolve(a, b)` for the relative second
arguments the installer passes: join with a slash. -/
def pathJoin (a b : String) : String :=
  if a = "" then b else if b = "" then a else a ++ "/" ++ b

/-- Model of `node:path` `relative(root, p)` for the case `p` lies under
`root`: strip the root prefix, else return `p` unchanged. -/
def relativeTo (root p : String) : String :=
  if p = root then ""
  else if strIsPrefixOf (root ++ "/") p then String.mk (p.toList.drop (root.length + 1))
  else p

/-- Model of `node:path` `dirname`: drop the last `/`-component
(`"."` when there is no slash, as in Node). -/
def dirname (p : String) : String :=
  let l := p.toList
  if l.contains '/' then
    String.mk ((l.reverse.dropWhile (fun c => c ≠ '/')).drop 1).reverse
  else "."

/-- The filesystem: an association list from absolute path to contents. -/
abbrev FS := List (String × Str)

/-- Contents at a path, if the file exists. -/
def fsFind (fs : FS) (p : String) : Option Str :=
  (fs.find? (fun kv => kv.1 = p)).map Prod.snd

/-- `existsSync` of `node:fs`. -/
def existsSync (fs : FS) (p : String) : Bool :=
  (fsFind fs p).isSome

/-- `writeFile`: create or overwrite the file at `p`. -/
def fsWrite (fs : FS) (p : String) (c : Str) : FS :=
  (p, c) :: fs

/-! ## Project configuration and target selection (installer.ts) -/

/-- One declared app of the workspace (`apps` entry of
`monolith.config.json`). -/
structure AppConfig where
  name : String
  typ : TargetKind       -- `type` in the source
  path : String
deriving Repr, DecidableEq

/-- The parsed project configuration.  JSON parsing and the legacy
`backendName`/`frontendName` conversion of `getProjectConfig` happen
before the logic modelled here; the environment supplies the parsed
record (or `none` when the file is missing or unparsable). -/
structure ProjectConfig where
  apps : List AppConfig
deriving Repr, DecidableEq

/-- An install target: one app and the file kinds to install into it. -/
structure InstallTarget where
  app : AppConfig
  types : List TargetKind
deriving Repr, DecidableEq

/-- `detectCurrentApp`: the first declared app whose path is a prefix of
(or equal to) the working directory relative to the project root. -/
def detectCurrentApp (config : Option ProjectConfig) (projectRoot currentWorkingDir : String) :
    Option AppConfig :=
  match config with
  | none => none
  | some cfg =>
      let relativePath := relativeTo projectRoot currentWorkingDir
      cfg.apps.find? (fun app => strIsPrefixOf app.path relativePath || relativePath == app.path)

/-- `selectInstallTargets`.  The interactive `prompts` select (the
multi-app case) is the external selection collaborator; it is modelled
by the oracle `choose`, which returns one of the offered apps. -/
def selectInstallTargets (config : Option ProjectConfig) (projectRoot currentWorkingDir : String)
    (choose : TargetKind → List AppConfig → AppConfig) (module : ModuleConfig) :
    List InstallTarget :=
  match config with
  | none =>
      [{ app := { name := "", typ := .backend, path := "" }, types := [.backend, .frontend] }]
  | some cfg =>
      if cfg.apps = [] then
        [{ app := { name := "", typ := .backend, path := "" }, types := [.backend, .frontend] }]
      else
        match detectCurrentApp (some cfg) projectRoot currentWorkingDir with
        | some currentApp =>
            let moduleTargets := module.targets.getD [.backend, .frontend]
            let validTypes := moduleTargets.filter (fun t => t == currentApp.typ)
            [{ app := currentApp,
               types := if validTypes.length > 0 then validTypes else [currentApp.typ] }]
        | none =>
            let moduleTargets := module.targets.getD [.backend, .frontend]
            moduleTargets.foldl (fun targets targetType =>
              let sameTypeApps := cfg.apps.filter (fun a => a.typ == targetType)
              match sameTypeApps with
              | [] => targets
              | [a] => targets ++ [{ app := a, types := [targetType] }]
              | apps => targets ++ [{ app := choose targetType apps, types := [targetType] }]) []

/-- `filterFilesByTarget`: the flat (legacy) list is returned whole for
any requested kind; the keyed format selects the kind's list. -/
def filterFilesByTarget (files : FilesField) (targetType : TargetKind) : List ModuleFile :=
  match files with
  | .flat fs => fs
  | .byKind b f => match targetType with | .backend => b | .frontend => f

/-- `getInstallPath`: the app path under the project root, or the
project root itself for the implicit single-app target. -/
def getInstallPath (projectRoot : String) (app : AppConfig) : String :=
  if app.path ≠ "" then pathJoin projectRoot app.path else projectRoot

/-! ## Template processing and file materialisation -/

/-- Fuel-indexed scanner for `replaceAll` (structural in the fuel so
that concrete instances reduce in the kernel; the fuel is the scanned
list's length, which bounds the number of scanning steps). -/
def replaceAllAux (pat rep : Str) : Nat → Str → Str
  | 0, s => s
  | _ + 1, [] => []
  | fuel + 1, c :: rest =>
      if pat ≠ [] ∧ pat.isPrefixOf (c :: rest) then
        rep ++ replaceAllAux pat rep fuel (rest.drop (pat.length - 1))
      else
        c :: replaceAllAux pat rep fuel rest

/-- Literal global find-and-replace, the model of
`content.replace(new RegExp(key, 'g'), value)` for the literal
placeholder keys the installer uses: scan left to right, replace each
non-overlapping occurrence, continue after the replacement (the
replacement text is not rescanned). -/
def replaceAll (pat rep s : Str) : Str :=
  replaceAllAux pat rep s.length s

/-- `generateFileHeader`: the provenance header comment. -/
def generateFileHeader (module : ModuleConfig) : Str :=
  ("// 🤖 This file is generated from @monolith/" ++ module.name ++ " v" ++ module.version
    ++ "\n// Do not edit this file directly unless you know what you are doing."
    ++ "\n// Source: https://github.com/eastgold15/Monolith").toList

/-- `processTemplateVariables`: apply the four placeholder replacements
in declaration order, then prepend the header unless the *original*
content already begins with a comment marker. -/
def processTemplateVariables (content : Str) (module : ModuleConfig)
    (projectName year : String) : Str :=
  let replacements : List (String × String) :=
    [("__MODULE_NAME__", module.name),
     ("__MODULE_VERSION__", module.version),
     ("__PROJECT_NAME__", projectName),
     ("__YEAR__", year)]
  let result := replacements.foldl
    (fun acc kv => replaceAll kv.1.toList kv.2.toList acc) content
  if !("//".toList.isPrefixOf content || "/*".toList.isPrefixOf content
        || "<!".toList.isPrefixOf content) then
    generateFileHeader module ++ "\n\n".toList ++ result
  else
    result

/-- Outcome kind of one file operation. -/
inductive FileAction where
  | created
  | skipped
  | merged
  | error
deriving Repr, DecidableEq

/-- `FileOperationResult` of installer.ts. -/
structure FileOperationResult where
  path : String
  action : FileAction
  error : Option String
deriving Repr, DecidableEq

/-- The effect environment of an install run: the registry, the parsed
project configuration, the oracles for template fetching (`readSource`,
local read or GitHub fetch), directory creation and file writing
(`none` = success, `some msg` = the operation rejects with that
message), package-manager invocation, and the ambient template
variables. -/
structure InstallEnv where
  registry : Registry
  projectConfig : Option ProjectConfig
  projectRoot : String
  currentWorkingDir : String
  choose : TargetKind → List AppConfig → AppConfig
  readSource : String → Except String Str
  mkdirErr : String → Option String
  writeErr : String → Option String
  execOk : String → Bool
  projectName : String
  year : String

/-- `installFile`.  Only the template read is inside a `try`/`catch` in
the source; `mkdir` and `writeFile` failures escape as exceptions
(`Except.error`), while a read failure is recorded as a per-file
`error` result. -/
def installFile (env : InstallEnv) (fs : FS) (fileConfig : ModuleFile)
    (installPath : String) (module : ModuleConfig) :
    Except String (FS × FileOperationResult) :=
  let targetPath := pathJoin installPath fileConfig.target
  if existsSync fs targetPath then
    .ok (fs, { path := relativeTo env.projectRoot targetPath, action := .skipped, error := none })
  else
    match env.readSource fileConfig.path with
    | .error e =>
        .ok (fs, { path := relativeTo env.projectRoot targetPath, action := .error,
                   error := some ("无法读取源文件: " ++ e) })
    | .ok content =>
        let content := processTemplateVariables content module env.projectName env.year
        match env.mkdirErr (dirname targetPath) with
        | some msg => .error msg
        | none =>
            match env.writeErr targetPath with
            | some msg => .error msg
            | none =>
                .ok (fsWrite fs targetPath content,
                     { path := relativeTo env.projectRoot targetPath, action := .created,
                       error := none })

/-! ## Package-manager and environment-variable installation -/

/-- `detectPackageManager`: lock-file based, fixed priority, default
`bun`. -/
def detectPackageManager (fs : FS) (workDir : String) : String :=
  if existsSync fs (pathJoin workDir "bun.lockb") then "bun"
  else if existsSync fs (pathJoin workDir "pnpm-lock.yaml") then "pnpm"
  else if existsSync fs (pathJoin workDir "yarn.lock") then "yarn"
  else if existsSync fs (pathJoin workDir "package-lock.json") then "npm"
  else "bun"

/-- `installDependencies`: one `execSync(pm add name@version)` per
declared dependency, in order; a failure is logged and skipped. -/
def installDependencies (env : InstallEnv) (fs : FS) (dependencies : List Dependency)
    (workDir : String) : List String :=
  let pm := detectPackageManager fs workDir
  dependencies.foldl (fun installed dep =>
    if env.execOk (pm ++ " add " ++ dep.name ++ "@" ++ dep.version) then
      installed ++ [dep.name]
    else installed) []

/-- The append of one `NAME=default` line, with the source's newline
handling: a separating newline is inserted only when the current content
is nonempty and does not already end in one. -/
def envAppendLine (content line : Str) : Str :=
  (if content ≠ [] ∧ ¬ endsWithNewline content then content ++ ['\n'] else content)
    ++ line ++ ['\n']

/-- The pure core of `configureEnvVariables`: the loop over the declared
variables, threading both file contents.  The presence test is JS
`String.includes`, i.e. substring search for `NAME=` anywhere in the
content. -/
def envMerge (vars : List EnvVariable) (envContent exampleContent : Str) : Str × Str :=
  vars.foldl (fun acc v =>
    let line := (v.name ++ "=" ++ v.dfault.getD "").toList
    let probe := (v.name ++ "=").toList
    let e := if ! containsSub acc.1 probe then envAppendLine acc.1 line else acc.1
    let x := if ! containsSub acc.2 probe then envAppendLine acc.2 line else acc.2
    (e, x)) (envContent, exampleContent)

/-- `configureEnvVariables`: read `.env` and `.env.example` under the
working directory (missing file = empty content), merge, write both
back. -/
def configureEnvVariables (vars : List EnvVariable) (workDir : String) (fs : FS) : FS :=
  let envPath := pathJoin workDir ".env"
  let examplePath := pathJoin workDir ".env.example"
  let envContent := (fsFind fs envPath).getD []
  let exampleContent := (fsFind fs examplePath).getD []
  let merged := envMerge vars envContent exampleContent
  fsWrite (fsWrite fs envPath merged.1) examplePath merged.2

/-! ## The `install` orchestration

The source accumulates per-file results and error messages in mutable
arrays inside a top-level `try`/`catch`; an exception thrown anywhere in
the body is caught with the arrays in their partial state.  The model
threads an explicit state and uses `Except` whose error carries both the
thrown message and that partial state. -/

/-- The accumulated state of an install run: the filesystem, the
per-file results, the per-file error messages, and the files collected
for auto-registration (each tagged with its target app, the
`__targetApp` marker of the source). -/
structure InstSt where
  fs : FS
  results : List FileOperationResult
  errors : List String
  autoRegs : List (ModuleFile × AppConfig)
deriving Repr

/-- The inner file loop of `install` step 5 for one target: each file
through `installFile`; an `error`-action result appends
`result.error || ''` to `errors` and the loop continues; a thrown
`mkdir`/`write` failure stops the loop with the state so far. -/
def runFiles (env : InstallEnv) (module : ModuleConfig) (app : AppConfig)
    (installPath : String) :
    List ModuleFile → InstSt → Except (String × InstSt) InstSt
  | [], s => .ok s
  | fileConfig :: rest, s =>
      match installFile env s.fs fileConfig installPath module with
      | .error msg => .error (msg, s)
      | .ok (fs', r) =>
          runFiles env module app installPath rest
            { fs := fs'
              results := s.results ++ [r]
              errors := s.errors ++
                (if r.action == .error then [r.error.getD ""] else [])
              autoRegs := s.autoRegs ++
                (if fileConfig.autoRegister.isSome then [(fileConfig, app)] else []) }

/-- The outer target loop of `install` step 5: for each target, filter
the module's files by the target's first kind and run the file loop. -/
def runTargets (env : InstallEnv) (module : ModuleConfig) :
    List InstallTarget → InstSt → Except (String × InstSt) InstSt
  | [], s => .ok s
  | target :: rest, s =>
      let installPath := getInstallPath env.projectRoot target.app
      let filteredFiles := filterFilesByTarget module.files (target.types.headD .backend)
      match runFiles env module target.app installPath filteredFiles s with
      | .error e => .error e
      | .ok s' => runTargets env module rest s'

/-- Structured result of `install`. -/
structure InstallResult where
  success : Bool
  installedFiles : List String
  installedDeps : List String
  errors : List String
deriving Repr, DecidableEq

/-- The paths of the results whose action is `created` — the
`installedFiles` computation of `install`. -/
def createdPaths (results : List FileOperationResult) : List String :=
  (results.filter (fun r => r.action == .created)).map (fun r => r.path)

/-- The body of `install` inside the `try`: steps 1-9.  On a thrown
error the `Except.error` carries the message, the partial state and the
dependencies installed so far (always `[]`, since every modelled throw
happens before step 6).  Steps 8 (`autoRegister`, which edits entry
files through ts-morph — modelled separately by `registerToFile` on a
source-file AST) and 9 (hooks, which only log or shell out with
failures caught) do not alter the modelled filesystem. -/
def installBody (env : InstallEnv) (fs : FS) (moduleName : String) (skipDeps : Bool) :
    Except (String × InstSt × List String) (InstSt × List String) :=
  let s0 : InstSt := { fs := fs, results := [], errors := [], autoRegs := [] }
  -- step 2: module lookup; a missing module throws
  match regFind env.registry moduleName with
  | none => .error ("模块 \"" ++ moduleName ++ "\" 不存在", s0, [])
  | some module =>
    -- step 3: target selection
    let installTargets :=
      selectInstallTargets env.projectConfig env.projectRoot env.currentWorkingDir
        env.choose module
    -- step 4: dependency check, only when `requires` is nonempty
    let depGate : Except (String × InstSt × List String) Unit :=
      if module.requires.length > 0 then
        let depCheck := checkDependencies env.registry moduleName
        if depCheck.missing.length > 0 then
          .error ("请先安装依赖模块: " ++ String.intercalate ", " depCheck.missing, s0, [])
        else if depCheck.circular.length > 0 then
          .error ("检测到循环依赖: " ++ String.intercalate " -> " depCheck.circular, s0, [])
        else .ok ()
      else .ok ()
    match depGate with
    | .error e => .error e
    | .ok () =>
      -- step 5: file materialisation per target
      match runTargets env module installTargets s0 with
      | .error (msg, s) => .error (msg, s, [])
      | .ok s =>
        -- step 6: npm dependencies, in the first target's directory
        let installedDeps :=
          if skipDeps = false ∧ module.dependencies.length > 0 then
            match installTargets with
            | [] => []
            | t :: _ =>
                installDependencies env s.fs module.dependencies
                  (getInstallPath env.projectRoot t.app)
          else []
        -- step 7: environment variables, in the first target's directory
        let fs' :=
          if module.envVariables.length > 0 then
            match installTargets with
            | [] => s.fs
            | t :: _ =>
                configureEnvVariables module.envVariables
                  (getInstallPath env.projectRoot t.app) s.fs
          else s.fs
        .ok ({ s with fs := fs' }, installedDeps)

/-- `install`: run the body; on the normal path `success` is `errors`
emptiness and on the caught-exception path the thrown message is
prepended to the accumulated errors with `success := false`.  In both
cases `installedFiles` collects the `created` results. -/
def install (env : InstallEnv) (fs : FS) (moduleName : String) (skipDeps : Bool) :
    InstallResult × FS :=
  match installBody env fs moduleName skipDeps with
  | .ok (s, installedDeps) =>
      ({ success := decide (s.errors = [])
         installedFiles := createdPaths s.results
         installedDeps := installedDeps
         errors := s.errors }, s.fs)
  | .error (msg, s, installedDeps) =>
      ({ success := false
         installedFiles := createdPaths s.results
         installedDeps := installedDeps
         errors := msg :: s.errors }, s.fs)

/-- The per-file results an install run accumulated, on either path. -/
def resultsOf (env : InstallEnv) (fs : FS) (moduleName : String) (skipDeps : Bool) :
    List FileOperationResult :=
  match installBody env fs moduleName skipDeps with
  | .ok (s, _) => s.results
  | .error (_, s, _) => s.results

/-! ## Source injection (`autoRegister` / `registerToFile`)

The source loads the entry file into a ts-morph `SourceFile`.  The model
keeps the two parts the function touches: the import declarations (which
`addImportDeclaration` appends to) and the body statements and comment
lines (which the marker search inspects). -/

/-- One import declaration of the entry file. -/
structure TsImport where
  defaultImport : String
  moduleSpecifier : String
deriving Repr, DecidableEq

/-- The entry source file: imports and body lines (statements and
line comments). -/
structure SourceFileModel where
  imports : List TsImport
  body : List String
deriving Repr, DecidableEq

/-- JS `String.includes` on Lean strings. -/
def strIncludes (s pat : String) : Bool :=
  containsSub s.toList pat.toList

/-- The marker search of `registerToFile`: the line comments of the body
whose text contains the configured marker. -/
def markerComments (sf : SourceFileModel) (marker : String) : List String :=
  sf.body.filter (fun line => strIsPrefixOf "//" line && strIncludes line marker)

/-- Model of `.replace(/\.ts$/, '')`. -/
def stripTsExt (p : String) : String :=
  if ".ts".toList.isSuffixOf p.toList then String.mk (p.toList.take (p.length - 3)) else p

/-- The import path computed by `registerToFile`:
`relative(dirname(targetPath), file.target)`, prefixed with `./` when not
already relative, with a trailing `.ts` stripped. -/
def importPathFor (targetPath fileTarget : String) : String :=
  let relativePath := relativeTo (dirname targetPath) fileTarget
  let importPath := if strIsPrefixOf "." relativePath then relativePath
                    else "./" ++ relativePath
  stripTsExt importPath

/-- `registerToFile` on one entry file: for each collected file, append
one import declaration binding `importAs`, then search for the marker
comment.  The search result only selects between a success log and a
warning; the body is never modified — no `.use(...)` call and no routes
statement is inserted for either `autoRegister.type`.  (Files reaching
this function always carry an `autoRegister` block — `autoRegister`
groups only such files — so the `none` branch is unreachable.) -/
def registerToFile (entry : SourceFileModel) (targetPath : String)
    (files : List ModuleFile) : SourceFileModel :=
  files.foldl (fun sf file =>
    match file.autoRegister with
    | none => sf
    | some config =>
        { sf with imports := sf.imports ++
            [{ defaultImport := config.importAs,
               moduleSpecifier := importPathFor targetPath file.target }] }) entry

/-! ## Helper lemmas -/

/-- `containsSub` finds exactly the substrings. -/
theorem containsSub_iff (s pat : Str) :
    containsSub s pat = true ↔ ∃ u v, s = u ++ pat ++ v := by
  induction s with
  | nil =>
      simp only [containsSub, List.isEmpty_iff]
      constructor
      · intro h
        exact ⟨[], [], by simp [h]⟩
      · rintro ⟨u, v, h⟩
        rcases List.append_eq_nil.mp h.symm with ⟨h1, h2⟩
        exact (List.append_eq_nil.mp h1).2
  | cons c rest ih =>
      simp only [containsSub, Bool.or_eq_true, List.isPrefixOf_iff_prefix]
      constructor
      · rintro (⟨v, hv⟩ | h)
        · exact ⟨[], v, by simp [← hv]⟩
        · obtain ⟨u, v, huv⟩ := ih.mp h
          exact ⟨c :: u, v, by simp [huv]⟩
      · rintro ⟨u, v, huv⟩
        cases u with
        | nil =>
            left
            exact ⟨v, by simpa using huv.symm⟩
        | cons d u' =>
            right
            apply ih.mpr
            refine ⟨u', v, ?_⟩
            simpa using (List.cons.injEq .. ▸ huv :
              c = d ∧ rest = u' ++ pat ++ v).2

/-- A substring of the left part is a substring of the whole. -/
theorem containsSub_append_right (s t pat : Str) (h : containsSub s pat = true) :
    containsSub (s ++ t) pat = true := by
  obtain ⟨u, v, huv⟩ := (containsSub_iff s pat).mp h
  exact (containsSub_iff _ _).mpr ⟨u, v ++ t, by simp [huv]⟩

/-- A substring of the right part is a substring of the whole. -/
theorem containsSub_append_left (s t pat : Str) (h : containsSub t pat = true) :
    containsSub (s ++ t) pat = true := by
  obtain ⟨u, v, huv⟩ := (containsSub_iff t pat).mp h
  exact (containsSub_iff _ _).mpr ⟨s ++ u, v, by simp [huv]⟩

/-- The old content survives an `envAppendLine` as a prefix. -/
theorem envAppendLine_keeps_content (content line : Str) :
    content <+: envAppendLine content line := by
  unfold envAppendLine
  split
  · exact ((List.prefix_append content ['\n']).trans (List.prefix_append _ _)).trans
      (List.prefix_append _ _)
  · exact (List.prefix_append content _).trans (List.prefix_append _ _)

/-! ## Claim C9: flat file lists go to every target whole -/

/-- C9.  A module whose `files` field is a flat list yields the entire
list for either requested kind in `filterFilesByTarget`, so each
selected install target receives all of the module's files regardless of
the target's kind. -/
theorem filterFiles_flat_ignores_target (files : List ModuleFile) (t : TargetKind) :
    filterFilesByTarget (.flat files) t = files ∧
    filterFilesByTarget (.flat files) .backend
      = filterFilesByTarget (.flat files) .frontend := by
  exact ⟨rfl, rfl⟩

/-! ## Claim C5: existing files are never overwritten -/

/-- C5.  Materialising a file whose resolved target path already exists
returns action `skipped` and performs no write: the filesystem — in
particular the existing file's contents — is returned unchanged. -/
theorem installFile_existing_skips (env : InstallEnv) (fs : FS) (fileConfig : ModuleFile)
    (installPath : String) (module : ModuleConfig)
    (h : existsSync fs (pathJoin installPath fileConfig.target) = true) :
    installFile env fs fileConfig installPath module =
      .ok (fs, { path := relativeTo env.projectRoot (pathJoin installPath fileConfig.target),
                 action := .skipped, error := none }) := by
  unfold installFile
  simp [h]

/-- Witness for C5 at a concrete filesystem: `/p/a.ts` exists, the spec
targets `a.ts` under `/p`, and the call returns `skipped` with the
filesystem unchanged. -/
theorem installFile_existing_skips_witness :
    existsSync [("/p/a.ts", ['x'])] (pathJoin "/p" "a.ts") = true ∧
    installFile
      { registry := [], projectConfig := none, projectRoot := "/p",
        currentWorkingDir := "/p", choose := fun _ apps => apps.getD 0 ⟨"", .backend, ""⟩,
        readSource := fun _ => .ok [], mkdirErr := fun _ => none,
        writeErr := fun _ => none, execOk := fun _ => true,
        projectName := "proj", year := "2026" }
      [("/p/a.ts", ['x'])]
      { path := "t/a.ts", target := "a.ts", ftype := "config", autoRegister := none }
      "/p"
      { name := "auth", description := "", version := "1", requires := [],
        dependencies := [], envVariables := [], files := .flat [],
        targets := none, afterInstall := [] } =
      .ok ([("/p/a.ts", ['x'])], { path := "a.ts", action := .skipped, error := none }) := by
  refine ⟨by decide, ?_⟩
  rw [installFile_existing_skips _ _ _ _ _ (by decide)]
  rfl

/-! ## Claim C8: the result invariant of `install` -/

/-- C8.  On both the normal return path and the caught-exception path of
`install`, `success` holds exactly when the `errors` list is empty, and
`installedFiles` is exactly the list of paths whose file-operation
result had action `created`. -/
theorem install_result_invariant (env : InstallEnv) (fs : FS) (moduleName : String)
    (skipDeps : Bool) :
    ((install env fs moduleName skipDeps).1.success = true
        ↔ (install env fs moduleName skipDeps).1.errors = []) ∧
    (install env fs moduleName skipDeps).1.installedFiles
        = createdPaths (resultsOf env fs moduleName skipDeps) := by
  unfold install resultsOf
  cases h : installBody env fs moduleName skipDeps with
  | ok p => simp
  | error e => simp

/-! ## Claim C2: environment-variable merging

The two file contents evolve independently inside the loop of
`configureEnvVariables`; `envMergeFile` is that evolution for a single
file and `envMerge` is its pairing. -/

/-- The evolution of one file's contents under the variable loop. -/
def envMergeFile (vars : List EnvVariable) (content : Str) : Str :=
  vars.foldl (fun c v =>
    let line := (v.name ++ "=" ++ v.dfault.getD "").toList
    if ! containsSub c ((v.name ++ "=").toList) then envAppendLine c line else c) content

/-- One step of the file merge, unfolded. -/
theorem envMergeFile_cons (v : EnvVariable) (vs : List EnvVariable) (content : Str) :
    envMergeFile (v :: vs) content =
      envMergeFile vs
        (if ! containsSub content ((v.name ++ "=").toList) then
          envAppendLine content ((v.name ++ "=" ++ v.dfault.getD "").toList)
        else content) := by
  rfl

/-- The pair merge is the file merge applied to each component. -/
theorem envMerge_eq (vars : List EnvVariable) (env ex : Str) :
    envMerge vars env ex = (envMergeFile vars env, envMergeFile vars ex) := by
  induction vars generalizing env ex with
  | nil => rfl
  | cons v vs ih =>
      simp only [envMerge, envMergeFile, List.foldl_cons] at ih ⊢
      exact ih _ _

/-- Substring presence survives an `envAppendLine`. -/
theorem containsSub_envAppendLine (s l pat : Str) (h : containsSub s pat = true) :
    containsSub (envAppendLine s l) pat = true := by
  unfold envAppendLine
  split
  · exact containsSub_append_right _ _ _ (containsSub_append_right _ _ _
      (containsSub_append_right _ _ _ h))
  · exact containsSub_append_right _ _ _ (containsSub_append_right _ _ _ h)

/-- The appended `NAME=default` line contains `NAME=` as a substring. -/
theorem containsSub_line_probe (name d : String) :
    containsSub ((name ++ "=" ++ d)).toList ((name ++ "=").toList) = true := by
  apply (containsSub_iff _ _).mpr
  refine ⟨[], d.toList, ?_⟩
  simp [String.toList, String.data_append]

/-- The original content survives the whole merge as a prefix: lines are
only appended, never rewritten or removed. -/
theorem envMergeFile_keeps_content (vars : List EnvVariable) (content : Str) :
    content <+: envMergeFile vars content := by
  induction vars generalizing content with
  | nil => exact List.prefix_rfl
  | cons v vs ih =>
      rw [envMergeFile_cons]
      cases hc : containsSub content ((v.name ++ "=").toList) with
      | true => simpa [hc] using ih content
      | false =>
          simp only [hc, Bool.not_false, if_true]
          exact (envAppendLine_keeps_content content _).trans (ih _)

/-- Substring presence survives the whole merge. -/
theorem envMergeFile_persist (vars : List EnvVariable) (content pat : Str)
    (h : containsSub content pat = true) :
    containsSub (envMergeFile vars content) pat = true := by
  induction vars generalizing content with
  | nil => exact h
  | cons v vs ih =>
      rw [envMergeFile_cons]
      cases hc : containsSub content ((v.name ++ "=").toList) with
      | true => simpa [hc] using ih content h
      | false =>
          simp only [hc, Bool.not_false, if_true]
          exact ih _ (containsSub_envAppendLine _ _ _ h)

/-- After the merge, every declared variable's `NAME=` is present. -/
theorem envMergeFile_ensures (vars : List EnvVariable) (content : Str) :
    ∀ v ∈ vars, containsSub (envMergeFile vars content) ((v.name ++ "=").toList) = true := by
  induction vars generalizing content with
  | nil => intro v hv; cases hv
  | cons w vs ih =>
      intro v hv
      rw [envMergeFile_cons]
      rcases List.mem_cons.mp hv with rfl | hv'
      · cases hc : containsSub content ((v.name ++ "=").toList) with
        | true =>
            simp only [hc, Bool.not_true, if_false]
            exact envMergeFile_persist vs content _ hc
        | false =>
            simp only [hc, Bool.not_false, if_true]
            apply envMergeFile_persist
            unfold envAppendLine
            exact containsSub_append_right _ _ _
              (containsSub_append_left _ _ _ (containsSub_line_probe _ _))
      · exact ih _ v hv'

/-- When every declared variable is already present (as a substring, at
any position), the merge changes nothing. -/
theorem envMergeFile_noop (vars : List EnvVariable) (content : Str)
    (h : ∀ v ∈ vars, containsSub content ((v.name ++ "=").toList) = true) :
    envMergeFile vars content = content := by
  induction vars with
  | nil => rfl
  | cons v vs ih =>
      have hv := h v (List.mem_cons_self v vs)
      rw [envMergeFile_cons, hv]
      simpa using ih (fun w hw => h w (List.mem_cons_of_mem v hw))

/-- The variable used by the C2 counterexample. -/
def barVar : EnvVariable :=
  { name := "BAR", description := "secondary token", dfault := some "2", required := true }

/-- A filesystem whose `.env` and `.env.example` contain `XBAR=1` only. -/
def fsC2 : FS :=
  [("/w/.env", "XBAR=1\n".toList), ("/w/.env.example", "XBAR=1\n".toList)]

/-- C2 counterexample.  In `/w/.env` no line *begins* with `BAR=`, so the
claim requires a `BAR=2` line to be appended; but `configureEnvVariables`
tests JS substring `includes`, `XBAR=1` contains `BAR=` as a substring,
and both files come back byte-identical — nothing is appended. -/
theorem configureEnv_substring_counterexample :
    ((linesOf "XBAR=1\n".toList).all
        (fun l => !(List.isPrefixOf "BAR=".toList l)) = true) ∧
    fsFind (configureEnvVariables [barVar] "/w" fsC2) "/w/.env"
      = some "XBAR=1\n".toList ∧
    fsFind (configureEnvVariables [barVar] "/w" fsC2) "/w/.env.example"
      = some "XBAR=1\n".toList := by
  refine ⟨by decide, by decide, by decide⟩

/-- C2 as amended.  For every run of the merge loop: existing content is
never rewritten or removed (it survives as a prefix of both files);
after the run every declared `NAME=` occurs in both files; and when each
declared `NAME=` already occurs *as a substring anywhere* (the JS
`includes` test — not only at line starts), nothing at all is appended
to that file. -/
theorem configureEnv_amended (vars : List EnvVariable) (env ex : Str) :
    (env <+: (envMerge vars env ex).1 ∧ ex <+: (envMerge vars env ex).2) ∧
    (∀ v ∈ vars,
        containsSub (envMerge vars env ex).1 ((v.name ++ "=").toList) = true ∧
        containsSub (envMerge vars env ex).2 ((v.name ++ "=").toList) = true) ∧
    ((∀ v ∈ vars, containsSub env ((v.name ++ "=").toList) = true) →
        (envMerge vars env ex).1 = env) ∧
    ((∀ v ∈ vars, containsSub ex ((v.name ++ "=").toList) = true) →
        (envMerge vars env ex).2 = ex) := by
  rw [envMerge_eq]
  refine ⟨⟨envMergeFile_keeps_content vars env, envMergeFile_keeps_content vars ex⟩, ?_, ?_, ?_⟩
  · intro v hv
    exact ⟨envMergeFile_ensures vars env v hv, envMergeFile_ensures vars ex v hv⟩
  · intro h
    exact envMergeFile_noop vars env h
  · intro h
    exact envMergeFile_noop vars ex h

/-- Witness for the amended C2 at a concrete input: with `BAR=1` already
present in `.env` (and nothing in `.env.example`), the merge leaves
`.env` untouched and `.env.example` gains the `BAR=2` line while keeping
its old content as a prefix. -/
theorem configureEnv_amended_witness :
    (∀ v ∈ [barVar], containsSub "BAR=1\n".toList ((v.name ++ "=").toList) = true) ∧
    (envMerge [barVar] "BAR=1\n".toList []).1 = "BAR=1\n".toList := by
  have h : ∀ v ∈ [barVar], containsSub "BAR=1\n".toList ((v.name ++ "=").toList) = true := by
    decide
  exact ⟨h, (configureEnv_amended [barVar] "BAR=1\n".toList []).2.2.1 h⟩

/-! ## Claim C7: target selection from inside an app directory -/

/-- A deterministic stand-in for the interactive app chooser. -/
def chooseD : TargetKind → List AppConfig → AppConfig :=
  fun _ apps => apps.getD 0 { name := "", typ := .backend, path := "" }

/-- The frontend app of the C7 scenario, at `apps/web`. -/
def webApp : AppConfig := { name := "web", typ := .frontend, path := "apps/web" }

/-- A workspace whose only declared app is the frontend `web`. -/
def cfgWeb : ProjectConfig := { apps := [webApp] }

/-- A module declaring only backend files. -/
def backendOnlyModule : ModuleConfig :=
  { name := "schema", description := "db schema", version := "1.0.0", requires := [],
    dependencies := [], envVariables := [], files := .flat [],
    targets := some [.backend], afterInstall := [] }

/-- A module declaring both kinds. -/
def fullstackModule : ModuleConfig :=
  { backendOnlyModule with name := "auth-ui", targets := some [.backend, .frontend] }

/-- C7 counterexample.  Invoked from inside the frontend app `web` on a
module declaring only `backend`, the claim requires the target's kinds
to be the declared kinds minus the irrelevant ones — the empty set.  The
code instead falls back to the app's own kind: it returns kinds
`[frontend]`, a kind the module does not even declare. -/
theorem select_targets_fallback_counterexample :
    detectCurrentApp (some cfgWeb) "/p" "/p/apps/web" = some webApp ∧
    selectInstallTargets (some cfgWeb) "/p" "/p/apps/web" chooseD backendOnlyModule
      = [{ app := webApp, types := [.frontend] }] ∧
    (backendOnlyModule.targets.getD [.backend, .frontend]).filter
        (fun t => t == webApp.typ) = [] ∧
    TargetKind.frontend ∉ backendOnlyModule.targets.getD [.backend, .frontend] := by
  refine ⟨by decide, by decide, by decide, by decide⟩

/-- C7 as amended.  When the working directory lies inside a declared
app, selection returns exactly one target, for that app; its kinds are
the module's declared kinds restricted to the app's own kind when that
restriction is nonempty, and otherwise default to the app's own kind
(even though the module does not declare it). -/
theorem select_targets_in_app_amended (cfg : ProjectConfig) (projectRoot cwdir : String)
    (choose : TargetKind → List AppConfig → AppConfig) (module : ModuleConfig)
    (app : AppConfig) (happs : ¬ cfg.apps = [])
    (hdet : detectCurrentApp (some cfg) projectRoot cwdir = some app) :
    selectInstallTargets (some cfg) projectRoot cwdir choose module
      = [{ app := app,
           types :=
             if ((module.targets.getD [.backend, .frontend]).filter
                   (fun t => t == app.typ)).length > 0 then
               (module.targets.getD [.backend, .frontend]).filter (fun t => t == app.typ)
             else [app.typ] }] := by
  simp only [selectInstallTargets, hdet, if_neg happs]

/-- Witness for the amended C7: from inside the frontend app `web`, a
module declaring both kinds installs exactly its frontend subset. -/
theorem select_targets_in_app_amended_witness :
    (¬ cfgWeb.apps = []) ∧
    detectCurrentApp (some cfgWeb) "/p" "/p/apps/web" = some webApp ∧
    selectInstallTargets (some cfgWeb) "/p" "/p/apps/web" chooseD fullstackModule
      = [{ app := webApp, types := [.frontend] }] := by
  refine ⟨by decide, by decide, ?_⟩
  rw [select_targets_in_app_amended cfgWeb "/p" "/p/apps/web" chooseD fullstackModule webApp
    (by decide) (by decide)]
  decide

/-! ## Claim C1: source injection inserts no registration statement -/

/-- The entry file of the C1 scenario: a marker line comment and an
Elysia call chain containing a `.use(...)` invocation. -/
def pluginEntry : SourceFileModel :=
  { imports := [],
    body := ["// register plugins below PLUGIN_REGISTRY",
             "const app = new Elysia()",
             "  .use(swagger())"] }

/-- An installed file declaring `autoRegister` of kind `plugin` against
that entry file. -/
def authPluginFile : ModuleFile :=
  { path := "auth/auth.ts", target := "src/auth/index.ts", ftype := "service",
    autoRegister := some { typ := .plugin, injectIn := "src/index.ts",
                           importAs := "authPlugin", marker := "PLUGIN_REGISTRY" } }

/-- C1, evaluated at the failing input.  The entry file contains the
configured marker comment and a `.use(...)` call chain, so the claim
requires one new import *and* one new registration statement (a chained
`.use(authPlugin)`).  `registerToFile` adds the import declaration and
then only logs the marker search: the body statements come back
unchanged and the alias appears in no statement — no registration is
ever inserted, for `plugin` or for `routes`. -/
theorem registerToFile_no_registration :
    markerComments pluginEntry "PLUGIN_REGISTRY" ≠ [] ∧
    pluginEntry.body.filter (fun l => strIncludes l ".use(") ≠ [] ∧
    (registerToFile pluginEntry "/p/src/index.ts" [authPluginFile]).body
      = pluginEntry.body ∧
    (registerToFile pluginEntry "/p/src/index.ts" [authPluginFile]).imports.map
        (fun i => i.defaultImport) = ["authPlugin"] ∧
    (registerToFile pluginEntry "/p/src/index.ts" [authPluginFile]).body.filter
        (fun l => strIncludes l "authPlugin") = [] := by
  refine ⟨by decide, by decide, by decide, by decide, by decide⟩

/-! ## Claim C3: failure handling during materialisation -/

/-- First file of the two-file module. -/
def fileF1 : ModuleFile :=
  { path := "t/f1.ts", target := "src/f1.ts", ftype := "service", autoRegister := none }

/-- Second (sibling) file of the two-file module. -/
def fileF2 : ModuleFile :=
  { path := "t/f2.ts", target := "src/f2.ts", ftype := "service", autoRegister := none }

/-- A module with two flat files and nothing else. -/
def twoFileModule : ModuleConfig :=
  { name := "auth", description := "auth module", version := "1.0.0", requires := [],
    dependencies := [], envVariables := [], files := .flat [fileF1, fileF2],
    targets := none, afterInstall := [] }

/-- An environment in which writing the first file's target rejects and
everything else succeeds. -/
def envWriteFail : InstallEnv :=
  { registry := [("auth", twoFileModule)], projectConfig := none, projectRoot := "/p",
    currentWorkingDir := "/p", choose := chooseD,
    readSource := fun _ => .ok "// x".toList,
    mkdirErr := fun _ => none,
    writeErr := fun p =>
      if p = "/p/src/f1.ts" then some "EACCES: permission denied, open /p/src/f1.ts"
      else none,
    execOk := fun _ => true, projectName := "proj", year := "2026" }

/-- C3 counterexample.  A file-write failure on the first file leaves
*no* per-file result at all (`resultsOf = []`, so no `error`-action
record exists) and aborts the sibling: the filesystem is unchanged and
`f2` is never created, even though materialising `f2` by itself
succeeds.  The failure surfaces only as a top-level thrown message. -/
theorem write_failure_aborts_counterexample :
    resultsOf envWriteFail [] "auth" false = [] ∧
    (install envWriteFail [] "auth" false).1 =
      { success := false, installedFiles := [], installedDeps := [],
        errors := ["EACCES: permission denied, open /p/src/f1.ts"] } ∧
    (install envWriteFail [] "auth" false).2 = [] ∧
    (installFile envWriteFail [] fileF2 "/p" twoFileModule).toOption =
      some ([("/p/src/f2.ts", "// x".toList)],
            { path := "src/f2.ts", action := .created, error := none }) := by
  refine ⟨by decide, by decide, by decide, by decide⟩

/-- C3 as amended.  A source-read failure yields a per-file `error`
result (with a message) and leaves the filesystem unchanged, and a run
in which every per-file call returns (rather than throws) produces one
result per file — siblings are not aborted.  A directory-creation or
file-write failure, by contrast, escapes `installFile` as a thrown
exception (`Except.error`), which stops the file loop. -/
theorem installFile_failure_modes :
    (∀ (env : InstallEnv) (fs : FS) (fileConfig : ModuleFile) (installPath : String)
        (module : ModuleConfig) (e : String),
        existsSync fs (pathJoin installPath fileConfig.target) = false →
        env.readSource fileConfig.path = .error e →
        installFile env fs fileConfig installPath module =
          .ok (fs, { path := relativeTo env.projectRoot (pathJoin installPath fileConfig.target),
                     action := .error, error := some ("无法读取源文件: " ++ e) })) ∧
    (∀ (env : InstallEnv) (fs : FS) (fileConfig : ModuleFile) (installPath : String)
        (module : ModuleConfig) (content : Str) (msg : String),
        existsSync fs (pathJoin installPath fileConfig.target) = false →
        env.readSource fileConfig.path = .ok content →
        env.mkdirErr (dirname (pathJoin installPath fileConfig.target)) = some msg →
        installFile env fs fileConfig installPath module = .error msg) ∧
    (∀ (env : InstallEnv) (fs : FS) (fileConfig : ModuleFile) (installPath : String)
        (module : ModuleConfig) (content : Str) (msg : String),
        existsSync fs (pathJoin installPath fileConfig.target) = false →
        env.readSource fileConfig.path = .ok content →
        env.mkdirErr (dirname (pathJoin installPath fileConfig.target)) = none →
        env.writeErr (pathJoin installPath fileConfig.target) = some msg →
        installFile env fs fileConfig installPath module = .error msg) ∧
    (∀ (env : InstallEnv) (module : ModuleConfig) (app : AppConfig) (installPath : String)
        (files : List ModuleFile) (s : InstSt),
        (∀ fc fs', (installFile env fs' fc installPath module).isOk = true) →
        ∃ s', runFiles env module app installPath files s = .ok s' ∧
              s'.results.length = s.results.length + files.length) := by
  refine ⟨?_, ?_, ?_, ?_⟩
  · intro env fs fileConfig installPath module e h1 h2
    unfold installFile
    simp [h1, h2]
  · intro env fs fileConfig installPath module content msg h1 h2 h3
    unfold installFile
    simp [h1, h2, h3]
  · intro env fs fileConfig installPath module content msg h1 h2 h3 h4
    unfold installFile
    simp [h1, h2, h3, h4]
  · intro env module app installPath files
    induction files with
    | nil => intro s _; exact ⟨s, rfl, by simp [runFiles]⟩
    | cons fc rest ih =>
        intro s hok
        have h := hok fc s.fs
        cases hres : installFile env s.fs fc installPath module with
        | error msg => rw [hres] at h; simp [Except.isOk, Except.toBool] at h
        | ok out =>
            obtain ⟨fs1, r1⟩ := out
            obtain ⟨s', hrun, hlen⟩ := ih
              { fs := fs1
                results := s.results ++ [r1]
                errors := s.errors ++
                  (if r1.action == .error then [r1.error.getD ""] else [])
                autoRegs := s.autoRegs ++
                  (if fc.autoRegister.isSome then [(fc, app)] else []) } hok
            refine ⟨s', ?_, ?_⟩
            · simp only [runFiles]
              rw [hres]
              exact hrun
            · rw [hlen]
              simp only [List.length_append, List.length_cons, List.length_nil]
              omega
    
/-- An environment whose template fetch always fails. -/
def envReadFail : InstallEnv :=
  { envWriteFail with
    readSource := fun _ => .error "HTTP 404: Not Found",
    writeErr := fun _ => none }

/-- Witness for the amended C3: a concrete read failure produces the
per-file `error` result with the filesystem untouched. -/
theorem installFile_failure_modes_witness :
    existsSync [] (pathJoin "/p" fileF1.target) = false ∧
    installFile envReadFail [] fileF1 "/p" twoFileModule =
      .ok ([], { path := "src/f1.ts", action := .error,
                 error := some ("无法读取源文件: " ++ "HTTP 404: Not Found") }) := by
  refine ⟨by decide, ?_⟩
  rw [installFile_failure_modes.1 envReadFail [] fileF1 "/p" twoFileModule "HTTP 404: Not Found"
    (by decide) rfl]
  rfl

/-! ## Resolver lemmas: monotonicity and fuel adequacy -/

/-- Componentwise inclusion of resolver states. -/
def DepSt.incl (s t : DepSt) : Prop :=
  s.satisfied ⊆ t.satisfied ∧ s.missing ⊆ t.missing ∧
  s.circular ⊆ t.circular ∧ s.visited ⊆ t.visited

/-- Reflexivity of state inclusion. -/
theorem DepSt.incl_refl (s : DepSt) : DepSt.incl s s :=
  ⟨fun _ h => h, fun _ h => h, fun _ h => h, fun _ h => h⟩

/-- Transitivity of state inclusion. -/
theorem DepSt.incl_trans {a b c : DepSt} (h1 : DepSt.incl a b) (h2 : DepSt.incl b c) :
    DepSt.incl a c :=
  ⟨fun _ h => h2.1 (h1.1 h), fun _ h => h2.2.1 (h1.2.1 h),
   fun _ h => h2.2.2.1 (h1.2.2.1 h), fun _ h => h2.2.2.2 (h1.2.2.2 h)⟩

/-- The DFS only appends to its four accumulators. -/
theorem check_incl (reg : Registry) : ∀ fuel : Nat,
    (∀ name path s, DepSt.incl s (checkStep reg fuel name path s)) ∧
    (∀ rs path s, DepSt.incl s (checkList reg fuel rs path s)) := by
  intro fuel
  induction fuel with
  | zero =>
      refine ⟨fun name path s => DepSt.incl_refl s, ?_⟩
      intro rs
      induction rs with
      | nil => exact fun path s => DepSt.incl_refl s
      | cons r rs' ihr =>
          intro path s
          rw [checkList_cons]
          exact ihr path _
  | succ fuel ih =>
      have hstep : ∀ name path s, DepSt.incl s (checkStep reg (fuel + 1) name path s) := by
        intro name path s
        rw [checkStep_succ]
        by_cases h1 : name ∈ path
        · rw [if_pos h1]
          exact ⟨fun _ h => h, fun _ h => h, fun _ h => List.mem_append_left _ h,
                 fun _ h => h⟩
        · rw [if_neg h1]
          by_cases h2 : name ∈ s.visited
          · rw [if_pos h2]; exact DepSt.incl_refl s
          · rw [if_neg h2]
            cases hm : regFind reg name with
            | some m =>
                refine DepSt.incl_trans ?_ (ih.2 m.requires (path ++ [name]) _)
                exact ⟨fun _ h => List.mem_append_left _ h, fun _ h => h, fun _ h => h,
                       fun _ h => List.mem_append_left _ h⟩
            | none =>
                exact ⟨fun _ h => h, fun _ h => List.mem_append_left _ h, fun _ h => h,
                       fun _ h => List.mem_append_left _ h⟩
      refine ⟨hstep, ?_⟩
      intro rs
      induction rs with
      | nil => exact fun path s => DepSt.incl_refl s
      | cons r rs' ihr =>
          intro path s
          rw [checkList_cons]
          exact DepSt.incl_trans (hstep r path s) (ihr path _)

/-- A found module's name is a registry key. -/
theorem regFind_some_mem {reg : Registry} {name : String} {m : ModuleConfig}
    (h : regFind reg name = some m) : name ∈ reg.map Prod.fst := by
  unfold regFind at h
  cases hf : reg.find? (fun kv => kv.1 = name) with
  | none => rw [hf] at h; cases h
  | some kv =>
      have hmem := List.mem_of_find?_eq_some hf
      have hp := List.find?_some hf
      simp only [decide_eq_true_eq] at hp
      exact hp ▸ List.mem_map_of_mem Prod.fst hmem

/-- Lookup fails exactly for non-keys. -/
theorem regFind_none_iff {reg : Registry} {name : String} :
    regFind reg name = none ↔ name ∉ reg.map Prod.fst := by
  constructor
  · intro h hmem
    obtain ⟨kv, hkv, hfst⟩ := List.mem_map.mp hmem
    unfold regFind at h
    rw [Option.map_eq_none'] at h
    have := List.find?_eq_none.mp h kv hkv
    simp only [decide_eq_true_eq] at this
    exact this hfst
  · intro h
    unfold regFind
    rw [Option.map_eq_none', List.find?_eq_none]
    intro kv hkv
    simp only [decide_eq_true_eq]
    exact fun hfst => h (hfst ▸ List.mem_map_of_mem Prod.fst hkv)

/-- The number of registry keys not yet visited: the termination
measure of the DFS. -/
def unvisitedList (reg : Registry) (visited : List String) : Nat :=
  ((reg.map Prod.fst).filter (fun k => decide (k ∉ visited))).length

/-- Growing the visited set shrinks the measure. -/
theorem unvisitedList_anti (reg : Registry) {v w : List String} (h : v ⊆ w) :
    unvisitedList reg w ≤ unvisitedList reg v := by
  apply List.Sublist.length_le
  apply List.monotone_filter_right
  intro a ha
  simp only [decide_eq_true_eq] at ha ⊢
  exact fun hav => ha (h hav)

/-- Visiting an unvisited registry key strictly shrinks the measure. -/
theorem unvisitedList_visit (reg : Registry) {v : List String} {n : String}
    (hn : n ∈ reg.map Prod.fst) (hv : n ∉ v) :
    unvisitedList reg (v ++ [n]) < unvisitedList reg v := by
  unfold unvisitedList
  have hfe : (reg.map Prod.fst).filter (fun k => decide (k ∉ v ++ [n]))
      = ((reg.map Prod.fst).filter (fun k => decide (k ∉ v))).filter
          (fun k => decide (k ≠ n)) := by
    rw [List.filter_filter]
    apply List.filter_congr
    intro a _
    simp [List.mem_append, decide_not, Bool.not_or, Bool.and_comm]
  rw [hfe]
  apply List.length_filter_lt_length_iff_exists.mpr
  exact ⟨n, List.mem_filter.mpr ⟨hn, by simpa using hv⟩, by simp⟩

/-- With nothing visited, the measure is the registry size. -/
theorem unvisitedList_nil (reg : Registry) : unvisitedList reg [] = reg.length := by
  unfold unvisitedList
  have he : ((reg.map Prod.fst).filter (fun k => decide (k ∉ ([] : List String))))
      = reg.map Prod.fst :=
    List.filter_eq_self.mpr (by intro a _; simp)
  rw [he, List.length_map]

/-- Fuel adequacy: one more unit of fuel changes nothing once the fuel
exceeds the number of unvisited registry keys. -/
theorem check_adequacy (reg : Registry) : ∀ fuel : Nat,
    (∀ name path s, unvisitedList reg s.visited < fuel →
        checkStep reg (fuel + 1) name path s = checkStep reg fuel name path s) ∧
    (∀ rs path s, unvisitedList reg s.visited < fuel →
        checkList reg (fuel + 1) rs path s = checkList reg fuel rs path s) := by
  intro fuel
  induction fuel with
  | zero =>
      exact ⟨fun name path s h => absurd h (Nat.not_lt_zero _),
             fun rs path s h => absurd h (Nat.not_lt_zero _)⟩
  | succ fuel ih =>
      have hstep : ∀ name path s, unvisitedList reg s.visited < fuel + 1 →
          checkStep reg (fuel + 1 + 1) name path s
            = checkStep reg (fuel + 1) name path s := by
        intro name path s hmu
        rw [checkStep_succ reg (fuel + 1), checkStep_succ reg fuel]
        by_cases h1 : name ∈ path
        · rw [if_pos h1, if_pos h1]
        · rw [if_neg h1, if_neg h1]
          by_cases h2 : name ∈ s.visited
          · rw [if_pos h2, if_pos h2]
          · rw [if_neg h2, if_neg h2]
            cases hm : regFind reg name with
            | some m =>
                apply ih.2
                show unvisitedList reg (s.visited ++ [name]) < fuel
                have hkey : name ∈ reg.map Prod.fst := regFind_some_mem hm
                have hdec := unvisitedList_visit reg hkey h2
                omega
            | none => rfl
      refine ⟨hstep, ?_⟩
      intro rs
      induction rs with
      | nil => intro path s _; rfl
      | cons r rs' ihr =>
          intro path s hmu
          rw [checkList_cons, checkList_cons, hstep r path s hmu]
          apply ihr
          calc unvisitedList reg (checkStep reg (fuel + 1) r path s).visited
              ≤ unvisitedList reg s.visited :=
                unvisitedList_anti reg ((check_incl reg (fuel + 1)).1 r path s).2.2.2
            _ < fuel + 1 := hmu

/-- Fuel stabilisation: any fuel above the measure gives the same
result as the measure bound itself. -/
theorem checkList_stable (reg : Registry) : ∀ g fuel : Nat,
    ∀ (rs path : List String) (s : DepSt), fuel ≤ g →
    unvisitedList reg s.visited < fuel →
    checkList reg g rs path s = checkList reg fuel rs path s := by
  intro g
  induction g with
  | zero =>
      intro fuel rs path s hle _
      have h0 : fuel = 0 := Nat.le_zero.mp hle
      rw [h0]
  | succ g ihg =>
      intro fuel rs path s hle hmu
      rcases Nat.eq_or_lt_of_le hle with heq | hlt
      · rw [heq]
      · have hfg : fuel ≤ g := Nat.lt_succ_iff.mp hlt
        have h1 : checkList reg (g + 1) rs path s = checkList reg g rs path s :=
          (check_adequacy reg g).2 rs path s (lt_of_lt_of_le hmu hfg)
        rw [h1]
        exact ihg fuel rs path s hfg hmu

/-! ## Claim C6: termination bounded by registry size -/

/-- A minimal module descriptor with the given `requires` list. -/
def moduleReq (name : String) (req : List String) : ModuleConfig :=
  { name := name, description := "", version := "1.0.0", requires := req,
    dependencies := [], envVariables := [], files := .flat [],
    targets := none, afterInstall := [] }

/-- The cyclic registry `A requires B requires A`. -/
def cycleReg : Registry := [("A", moduleReq "A" ["B"]), ("B", moduleReq "B" ["A"])]

/-- C6.  Dependency resolution terminates with work bounded by the
registry size: for every registry and start module, every fuel of at
least `reg.length + 1` yields the very result `checkDependencies`
computes at that bound — the DFS needs no deeper recursion than the
number of registry keys.  And on the cyclic registry
`A requires B requires A`, `resolve(A)` reports `A` in `circular`. -/
theorem checkDependencies_fuel_stable :
    (∀ (reg : Registry) (moduleName : String) (fuel : Nat),
        reg.length + 1 ≤ fuel →
        checkDependenciesFuel reg moduleName fuel = checkDependencies reg moduleName) ∧
    "A" ∈ (checkDependencies cycleReg "A").circular := by
  constructor
  · intro reg moduleName fuel hf
    unfold checkDependencies checkDependenciesFuel
    cases hm : regFind reg moduleName with
    | none => rfl
    | some m =>
        have hmu : unvisitedList reg
            (DepSt.visited { satisfied := [moduleName], missing := [], circular := [],
                             visited := [] }) < reg.length + 1 := by
          show unvisitedList reg [] < reg.length + 1
          rw [unvisitedList_nil]
          omega
        simp only [checkList_stable reg fuel (reg.length + 1) m.requires [moduleName] _ hf hmu]
  · decide

/-- Witness for C6 at the cyclic registry with fuel 5. -/
theorem checkDependencies_fuel_stable_witness :
    cycleReg.length + 1 ≤ 5 ∧
    checkDependenciesFuel cycleReg "A" 5 = checkDependencies cycleReg "A" :=
  ⟨by decide, checkDependencies_fuel_stable.1 cycleReg "A" 5 (by decide)⟩

/-! ## Claim C10: `satisfied`/`missing` are duplicate-free and disjoint -/

/-- The DFS invariant, relative to the root module `r` (which the top
level pushed onto `satisfied` without visiting, and which heads every
path).  All other `satisfied`/`missing` entries have been visited;
`satisfied` holds registry keys, `missing` holds non-keys; every
visited non-key has been recorded in `missing`. -/
def DepInv (reg : Registry) (r : String) (s : DepSt) : Prop :=
  r ∉ s.visited ∧
  s.satisfied.Nodup ∧
  s.missing.Nodup ∧
  (∀ x ∈ s.satisfied, x = r ∨ x ∈ s.visited) ∧
  (∀ x ∈ s.missing, x ∈ s.visited) ∧
  (∀ x ∈ s.satisfied, x ∈ reg.map Prod.fst) ∧
  (∀ x ∈ s.missing, x ∉ reg.map Prod.fst) ∧
  (∀ x ∈ s.visited, x ∉ reg.map Prod.fst → x ∈ s.missing)

/-- The DFS preserves the invariant whenever the root lies on the
current path. -/
theorem check_inv (reg : Registry) (r : String) : ∀ fuel : Nat,
    (∀ name path s, r ∈ path → DepInv reg r s →
        DepInv reg r (checkStep reg fuel name path s)) ∧
    (∀ rs path s, r ∈ path → DepInv reg r s →
        DepInv reg r (checkList reg fuel rs path s)) := by
  intro fuel
  induction fuel with
  | zero =>
      refine ⟨fun name path s _ h => h, ?_⟩
      intro rs
      induction rs with
      | nil => exact fun path s _ h => h
      | cons q rs' ihr =>
          intro path s hr h
          rw [checkList_cons]
          exact ihr path _ hr h
  | succ fuel ih =>
      have hstep : ∀ name path s, r ∈ path → DepInv reg r s →
          DepInv reg r (checkStep reg (fuel + 1) name path s) := by
        intro name path s hr hInv
        obtain ⟨hrv, hsn, hmn, hsv, hmv, hsk, hmk, hvm⟩ := hInv
        rw [checkStep_succ]
        by_cases h1 : name ∈ path
        · rw [if_pos h1]
          exact ⟨hrv, hsn, hmn, hsv, hmv, hsk, hmk, hvm⟩
        · rw [if_neg h1]
          by_cases h2 : name ∈ s.visited
          · rw [if_pos h2]; exact ⟨hrv, hsn, hmn, hsv, hmv, hsk, hmk, hvm⟩
          · rw [if_neg h2]
            have hnr : name ≠ r := fun he => h1 (he ▸ hr)
            cases hm : regFind reg name with
            | some m =>
                apply ih.2 m.requires (path ++ [name]) _ (List.mem_append_left _ hr)
                refine ⟨?_, ?_, hmn, ?_, ?_, ?_, hmk, ?_⟩
                · intro hmem
                  rcases List.mem_append.mp hmem with h | h
                  · exact hrv h
                  · exact hnr (List.mem_singleton.mp h).symm
                · have hnot : name ∉ s.satisfied := fun hmem =>
                    (hsv name hmem).elim (fun he => hnr he) (fun hv => h2 hv)
                  simp [List.nodup_append, hsn, hnot]
                · intro x hx
                  rcases List.mem_append.mp hx with hx | hx
                  · rcases hsv x hx with he | hv
                    · exact Or.inl he
                    · exact Or.inr (List.mem_append_left _ hv)
                  · rw [List.mem_singleton.mp hx]
                    exact Or.inr (List.mem_append_right _ (List.mem_singleton_self name))
                · intro x hx
                  exact List.mem_append_left _ (hmv x hx)
                · intro x hx
                  rcases List.mem_append.mp hx with hx | hx
                  · exact hsk x hx
                  · rw [List.mem_singleton.mp hx]
                    exact regFind_some_mem hm
                · intro x hx hxk
                  rcases List.mem_append.mp hx with hx | hx
                  · exact hvm x hx hxk
                  · rw [List.mem_singleton.mp hx] at hxk
                    exact absurd (regFind_some_mem hm) hxk
            | none =>
                have hnk : name ∉ reg.map Prod.fst := regFind_none_iff.mp hm
                refine ⟨?_, hsn, ?_, ?_, ?_, hsk, ?_, ?_⟩
                · intro hmem
                  rcases List.mem_append.mp hmem with h | h
                  · exact hrv h
                  · exact hnr (List.mem_singleton.mp h).symm
                · have hnot : name ∉ s.missing := fun hmem => h2 (hmv name hmem)
                  simp [List.nodup_append, hmn, hnot]
                · intro x hx
                  rcases hsv x hx with he | hv
                  · exact Or.inl he
                  · exact Or.inr (List.mem_append_left _ hv)
                · intro x hx
                  rcases List.mem_append.mp hx with hx | hx
                  · exact List.mem_append_left _ (hmv x hx)
                  · rw [List.mem_singleton.mp hx]
                    exact List.mem_append_right _ (List.mem_singleton_self name)
                · intro x hx
                  rcases List.mem_append.mp hx with hx | hx
                  · exact hmk x hx
                  · rw [List.mem_singleton.mp hx]
                    exact hnk
                · intro x hx hxk
                  rcases List.mem_append.mp hx with hx | hx
                  · exact List.mem_append_left _ (hvm x hx hxk)
                  · rw [List.mem_singleton.mp hx]
                    exact List.mem_append_right _ (List.mem_singleton_self name)
      refine ⟨hstep, ?_⟩
      intro rs
      induction rs with
      | nil => exact fun path s _ h => h
      | cons q rs' ihr =>
          intro path s hr h
          rw [checkList_cons]
          exact ihr path _ hr (hstep q path s hr h)

/-- C10.  For every registry and start module, `satisfied` and
`missing` are each duplicate-free, and no name lies in both. -/
theorem checkDependencies_disjoint_nodup (reg : Registry) (moduleName : String) :
    (checkDependencies reg moduleName).satisfied.Nodup ∧
    (checkDependencies reg moduleName).missing.Nodup ∧
    ∀ x ∈ (checkDependencies reg moduleName).satisfied,
      x ∉ (checkDependencies reg moduleName).missing := by
  unfold checkDependencies checkDependenciesFuel
  cases hm : regFind reg moduleName with
  | none =>
      exact ⟨List.nodup_nil, List.nodup_nil, by intro x hx; cases hx⟩
  | some m =>
      have hInv0 : DepInv reg moduleName
          { satisfied := [moduleName], missing := [], circular := [], visited := [] } := by
        refine ⟨List.not_mem_nil _, List.nodup_singleton _, List.nodup_nil, ?_, ?_, ?_, ?_, ?_⟩
        · intro x hx; exact Or.inl (List.mem_singleton.mp hx)
        · intro x hx; cases hx
        · intro x hx
          rw [List.mem_singleton.mp hx]
          exact regFind_some_mem hm
        · intro x hx; cases hx
        · intro x hx; cases hx
      have hfin := (check_inv reg moduleName (reg.length + 1)).2 m.requires [moduleName]
        { satisfied := [moduleName], missing := [], circular := [], visited := [] }
        (List.mem_singleton_self moduleName) hInv0
      obtain ⟨_, hsn, hmn, _, _, hsk, hmk, _⟩ := hfin
      exact ⟨hsn, hmn, fun x hx hxm => hmk x hxm (hsk x hx)⟩

/-- The one-module registry used by the C10 witness. -/
def regSingleA : Registry := [("A", moduleReq "A" [])]

/-- Witness for C10: in the one-module registry, `A` is satisfied and
hence not missing. -/
theorem checkDependencies_disjoint_nodup_witness :
    "A" ∈ (checkDependencies regSingleA "A").satisfied ∧
    "A" ∉ (checkDependencies regSingleA "A").missing := by
  have h : "A" ∈ (checkDependencies regSingleA "A").satisfied := by decide
  exact ⟨h, (checkDependencies_disjoint_nodup regSingleA "A").2.2 "A" h⟩

/-! ## Claim C4: a missing dependency aborts before any file write -/

/-- The lightweight invariant feeding C4: every visited non-key has
been recorded in `missing`. -/
def VisMissing (reg : Registry) (s : DepSt) : Prop :=
  ∀ y ∈ s.visited, y ∉ reg.map Prod.fst → y ∈ s.missing

/-- The DFS preserves `VisMissing`. -/
theorem check_vismissing (reg : Registry) : ∀ fuel : Nat,
    (∀ name path s, VisMissing reg s → VisMissing reg (checkStep reg fuel name path s)) ∧
    (∀ rs path s, VisMissing reg s → VisMissing reg (checkList reg fuel rs path s)) := by
  intro fuel
  induction fuel with
  | zero =>
      refine ⟨fun name path s h => h, ?_⟩
      intro rs
      induction rs with
      | nil => exact fun path s h => h
      | cons q rs' ihr =>
          intro path s h
          rw [checkList_cons]
          exact ihr path _ h
  | succ fuel ih =>
      have hstep : ∀ name path s, VisMissing reg s →
          VisMissing reg (checkStep reg (fuel + 1) name path s) := by
        intro name path s hv
        rw [checkStep_succ]
        by_cases h1 : name ∈ path
        · rw [if_pos h1]; exact hv
        · rw [if_neg h1]
          by_cases h2 : name ∈ s.visited
          · rw [if_pos h2]; exact hv
          · rw [if_neg h2]
            cases hm : regFind reg name with
            | some m =>
                apply ih.2
                intro y hy hyk
                rcases List.mem_append.mp hy with hy | hy
                · exact hv y hy hyk
                · rw [List.mem_singleton.mp hy] at hyk
                  exact absurd (regFind_some_mem hm) hyk
            | none =>
                intro y hy hyk
                rcases List.mem_append.mp hy with hy | hy
                · exact List.mem_append_left _ (hv y hy hyk)
                · rw [List.mem_singleton.mp hy]
                  exact List.mem_append_right _ (List.mem_singleton_self name)
      refine ⟨hstep, ?_⟩
      intro rs
      induction rs with
      | nil => exact fun path s h => h
      | cons q rs' ihr =>
          intro path s h
          rw [checkList_cons]
          exact ihr path _ (hstep q path s h)

/-- Processing an absent requirement that is not on the path records it
in `missing`. -/
theorem checkStep_absent_missing (reg : Registry) (fuel : Nat) (name : String)
    (path : List String) (s : DepSt) (h1 : name ∉ path)
    (h2 : name ∉ reg.map Prod.fst) (hv : VisMissing reg s) :
    name ∈ (checkStep reg (fuel + 1) name path s).missing := by
  rw [checkStep_succ, if_neg h1]
  by_cases hvis : name ∈ s.visited
  · rw [if_pos hvis]
    exact hv name hvis h2
  · rw [if_neg hvis]
    cases hm : regFind reg name with
    | some m => exact absurd (regFind_some_mem hm) h2
    | none => exact List.mem_append_right _ (List.mem_singleton_self name)

/-- Any absent requirement in the list, not on the path, ends up in the
final `missing`. -/
theorem checkList_absent_missing (reg : Registry) (fuel : Nat) :
    ∀ (rs path : List String) (s : DepSt) (x : String),
      x ∈ rs → x ∉ path → x ∉ reg.map Prod.fst → VisMissing reg s →
      x ∈ (checkList reg (fuel + 1) rs path s).missing := by
  intro rs
  induction rs with
  | nil => intro path s x hx; cases hx
  | cons q rs' ihr =>
      intro path s x hx hxp hxk hv
      rw [checkList_cons]
      rcases List.mem_cons.mp hx with rfl | hx'
      · have hmem := checkStep_absent_missing reg fuel x path s hxp hxk hv
        exact ((check_incl reg (fuel + 1)).2 rs' path _).2.1 hmem
      · exact ihr path _ x hx' hxp hxk ((check_vismissing reg (fuel + 1)).1 q path s hv)

/-- A requirement absent from the registry appears in the resolver's
`missing` output. -/
theorem checkDependencies_missing_nonempty (reg : Registry) (moduleName : String)
    (m : ModuleConfig) (r : String) (hm : regFind reg moduleName = some m)
    (hr : r ∈ m.requires) (habs : regFind reg r = none) :
    r ∈ (checkDependencies reg moduleName).missing := by
  unfold checkDependencies checkDependenciesFuel
  rw [hm]
  have hrk : r ∉ reg.map Prod.fst := regFind_none_iff.mp habs
  have hrp : r ∉ [moduleName] := by
    intro hmem
    rw [List.mem_singleton.mp hmem] at hrk
    exact hrk (regFind_some_mem hm)
  exact checkList_absent_missing reg reg.length m.requires [moduleName]
    { satisfied := [moduleName], missing := [], circular := [], visited := [] }
    r hr hrp hrk (by intro y hy; cases hy)

/-- C4.  A module whose `requires` names a module absent from the
registry makes `install` fail before any file operation: the result is
`success := false` with the missing-dependency message as the only
error, no installed files or dependencies, and the filesystem returned
unchanged. -/
theorem install_missing_dependency (env : InstallEnv) (fs : FS) (moduleName : String)
    (skipDeps : Bool) (m : ModuleConfig) (r : String)
    (hm : regFind env.registry moduleName = some m)
    (hr : r ∈ m.requires) (habs : regFind env.registry r = none) :
    install env fs moduleName skipDeps =
      ({ success := false, installedFiles := [], installedDeps := [],
         errors := ["请先安装依赖模块: " ++ String.intercalate ", "
                      (checkDependencies env.registry moduleName).missing] }, fs) := by
  have hmem := checkDependencies_missing_nonempty env.registry moduleName m r hm hr habs
  have hlen : (checkDependencies env.registry moduleName).missing.length > 0 :=
    List.length_pos.mpr (fun hnil => by rw [hnil] at hmem; cases hmem)
  have hreq : m.requires.length > 0 :=
    List.length_pos.mpr (fun hnil => by rw [hnil] at hr; cases hr)
  unfold install installBody
  rw [hm]
  simp only [if_pos hreq, if_pos hlen]
  rfl

/-- The registry and environment of the C4 witness: `blog` requires the
absent module `zzz`. -/
def envMissingDep : InstallEnv :=
  { registry := [("blog", moduleReq "blog" ["zzz"])], projectConfig := none,
    projectRoot := "/p", currentWorkingDir := "/p", choose := chooseD,
    readSource := fun _ => .ok "// x".toList, mkdirErr := fun _ => none,
    writeErr := fun _ => none, execOk := fun _ => true,
    projectName := "proj", year := "2026" }

/-- Witness for C4: installing `blog` fails with the missing-dependency
message and touches nothing. -/
theorem install_missing_dependency_witness :
    install envMissingDep [] "blog" false =
      ({ success := false, installedFiles := [], installedDeps := [],
         errors := ["请先安装依赖模块: zzz"] }, []) := by
  rw [install_missing_dependency envMissingDep [] "blog" false
    (moduleReq "blog" ["zzz"]) "zzz" rfl (by decide) rfl]
  decide

end Monolith
